import Mathlib

/-!
Shallow embedding of the Simple-pratt-parser repository (Go): a tokenizer for
single-digit arithmetic, a stack-based token cursor, a Pratt parser with
binding-power tables, and a tree-walking evaluator.  Go panics (explicit
`panic(...)` calls and runtime panics such as nil-interface method calls,
nil-slice indexing and integer division by zero) are modelled as `Except`
errors carrying the panic message; an uncaught Go panic crashes the process.
-/

deriving instance DecidableEq for Except

namespace SimplePratt

/-- Failure modes of the embedded Go code.  `goPanic msg` models a Go panic
(explicit or runtime) with its message: the program has no recover, so such a
panic crashes the process.  `outOfFuel` is a marker of the fuel-based
encoding of the recursive parser; it is proved unreachable when the fuel
exceeds the token count. -/
inductive GoErr where
| goPanic (msg : String)
| outOfFuel
deriving DecidableEq

/-- Message of the Go runtime panic raised by calling a method on a nil
interface value. -/
def nilPanicMsg : String := "runtime error: invalid memory address or nil pointer dereference"

/-- Message of the Go runtime panic raised by indexing the nil slice returned
by a map lookup on a missing key. -/
def idxPanicMsg : String := "runtime error: index out of range"

/-- Message of the Go runtime panic raised by integer division by zero. -/
def divPanicMsg : String := "runtime error: integer divide by zero"

/-- The Token interface of main.go: `IntegerToken{value int32}`,
`OperatorToken{literal string}` and the never-constructed
`PrefixToken{literal string}`. -/
inductive Token where
| IntegerToken (value : Int)
| OperatorToken (literal : String)
| PrefixToken (literal : String)
deriving DecidableEq

/-- The Expression interface of main.go.  `IntegerToken` doubles as an
Expression in the Go code; `nilExpr` is the nil interface value that `lhs`
keeps when no switch case assigns it. -/
inductive Expr where
| IntegerToken (value : Int)
| PrefixExpression (op : String) (rhs : Expr)
| InfixExpression (lhs : Expr) (rhs : Expr) (op : String)
| nilExpr
deriving DecidableEq

/-- The Lexer struct: `tokens TokenArray`. -/
structure Lexer where
tokens : List Token
deriving DecidableEq

/-- The byte a character contributes to the scanned array: `New` writes
`byte(char)` for each rune of the input, truncating the code point to its low
eight bits. -/
def byteOf (c : Char) : Nat := c.toNat % 256

/-- The character-classification loop of `New` (main.go lines 111-127) over
the byte array: whitespace bytes are skipped, digit bytes become
`IntegerToken` with the digit's value, the four operator bytes become
`OperatorToken` with the one-character literal, and every other byte is
dropped. -/
def scanBytes : List Nat → List Token
| [] => []
| b :: rest =>
  if b = 32 ∨ b = 13 ∨ b = 9 ∨ b = 10 then scanBytes rest
  else if 48 ≤ b ∧ b ≤ 57 then Token.IntegerToken (Int.ofNat (b - 48)) :: scanBytes rest
  else if b = 43 ∨ b = 45 ∨ b = 42 ∨ b = 47 then
    Token.OperatorToken (String.mk [Char.ofNat b]) :: scanBytes rest
  else scanBytes rest

/-- The token array `New` builds before reversing it: the tokenizer output in
input order. -/
def scanTokens (s : String) : List Token := scanBytes (s.data.map byteOf)

/-- One iteration's swap of `TokenArray.Reverse`: exchange positions `i` and
`j` (always in bounds in every reachable call). -/
def listSwap (c : List Token) (i j : Nat) : List Token :=
  match c.get? i, c.get? j with
  | some a, some b => (c.set i b).set j a
  | _, _ => c

/-- The two-pointer loop of `TokenArray.Reverse` in main.go and part_000,
with loop condition `e - s >= 1`, written with a structural gas argument
(`c.length` iterations always suffice since `e - s` drops by two per step). -/
def reverseLoopGas : Nat → List Token → Nat → Nat → List Token
| 0, c, _, _ => c
| g + 1, c, s, e => if e - s ≥ 1 then reverseLoopGas g (listSwap c s e) (s + 1) (e - 1) else c

/-- `TokenArray.Reverse` of main.go / part_000: swap from both ends while
`e - s >= 1`. -/
def reverseGo (c : List Token) : List Token := reverseLoopGas c.length c 0 (c.length - 1)

/-- The two-pointer loop of `TokenArray.Reverse` in part_001, whose condition
is `e - s > 1` instead of `e - s >= 1`. -/
def reverseLoopV1Gas : Nat → List Token → Nat → Nat → List Token
| 0, c, _, _ => c
| g + 1, c, s, e => if e - s > 1 then reverseLoopV1Gas g (listSwap c s e) (s + 1) (e - 1) else c

/-- `TokenArray.Reverse` of part_001 (loop condition `e - s > 1`). -/
def reverseV1 (c : List Token) : List Token := reverseLoopV1Gas c.length c 0 (c.length - 1)

/-- `New` of main.go: scan the input into a token array, reverse it in place,
and store it in a Lexer. -/
def New (s : String) : Lexer := ⟨reverseGo (scanTokens s)⟩

/-- `New` of part_001: identical scan, but the part_001 `Reverse`. -/
def NewV1 (s : String) : Lexer := ⟨reverseV1 (scanTokens s)⟩

/-- `Lexer.next` of main.go: on an empty token array return nil; otherwise
pop and return the last element. -/
def next (l : Lexer) : Option Token × Lexer :=
  match l.tokens.getLast? with
  | none => (none, l)
  | some t => (some t, ⟨l.tokens.dropLast⟩)

/-- `Lexer.peek`: the last element of the token array, nil if empty. -/
def peek (l : Lexer) : Option Token := l.tokens.getLast?

/-- `getExpressionValue` on tokens: the decimal string of an IntegerToken's
value, the literal of the other two kinds. -/
def getExpressionValue : Token → String
| Token.IntegerToken v => toString v
| Token.OperatorToken lit => lit
| Token.PrefixToken lit => lit

/-- `operatorBindingPowerMap` of `parse`: the infix (left, right) binding
powers; a missing key gives Go's nil slice, modelled as `none`. -/
def operatorBindingPowerMap (lit : String) : Option (Int × Int) :=
  if lit = "+" then some (1, 2)
  else if lit = "-" then some (1, 2)
  else if lit = "*" then some (3, 4)
  else if lit = "/" then some (3, 4)
  else none

/-- `prefixBindingPowerMap` of `parse` in main.go: the prefix (left, right)
binding powers for `+` and `-`; a missing key gives Go's nil slice, modelled
as `none`. -/
def prefixBindingPowerMap (lit : String) : Option (Int × Int) :=
  if lit = "+" then some (0, 5)
  else if lit = "-" then some (0, 5)
  else none

/-- The recursive `parse(l, min_bp)` of main.go, written as one structurally
fuel-bounded function.  `parseF fuel none l min_bp` models a call of `parse`
before it reads its left-hand seed; `parseF fuel (some lhs) l min_bp` models
the `for` loop of the same call with current accumulated `lhs`.  The seed
phase: pop a token (a nil token makes `getTokenType` panic); an Integer token
becomes the lhs; an Operator token takes the broken `"("` branch (discard a
token, parse at 0, demand a `")"` via peek, and then still fall through to
the prefix-map lookup of `"("`, which indexes a nil slice) or looks up the
prefix binding power (nil-slice index panic when missing) and parses the
operand with its right binding power; a PrefixToken matches no switch case
and leaves lhs nil.  The loop phase: stop on exhausted tokens; panic if peek
is not an Operator token; look up the infix binding powers (nil-slice index
panic when missing); stop without consuming when the left binding power is
below `min_bp`; otherwise consume the operator, parse the right-hand side at
the operator's right binding power, and fold into an InfixExpression. -/
def parseF : Nat → Option Expr → Lexer → Int → Except GoErr (Expr × Lexer)
| 0, _, _, _ => Except.error GoErr.outOfFuel
| Nat.succ fuel, none, l, min_bp =>
  match next l with
  | (none, _) => Except.error (GoErr.goPanic nilPanicMsg)
  | (some (Token.IntegerToken v), l1) =>
    parseF fuel (some (Expr.IntegerToken v)) l1 min_bp
  | (some (Token.OperatorToken lit), l1) =>
    if lit = "(" then
      match parseF fuel none (next l1).2 0 with
      | Except.error e => Except.error e
      | Except.ok (_, l3) =>
        match peek l3 with
        | none => Except.error (GoErr.goPanic nilPanicMsg)
        | some t =>
          if getExpressionValue t = ")" then Except.error (GoErr.goPanic idxPanicMsg)
          else Except.error (GoErr.goPanic "Expected right paren")
    else
      match prefixBindingPowerMap lit with
      | none => Except.error (GoErr.goPanic idxPanicMsg)
      | some bps =>
        match parseF fuel none l1 bps.2 with
        | Except.error e => Except.error e
        | Except.ok (rhs, l2) =>
          parseF fuel (some (Expr.PrefixExpression lit rhs)) l2 min_bp
  | (some (Token.PrefixToken _), l1) => parseF fuel (some Expr.nilExpr) l1 min_bp
| Nat.succ fuel, some lhs, l, min_bp =>
  match peek l with
  | none => Except.ok (lhs, l)
  | some (Token.IntegerToken _) =>
    Except.error (GoErr.goPanic "Integer should be followed by an operand")
  | some (Token.PrefixToken _) =>
    Except.error (GoErr.goPanic "Integer should be followed by an operand")
  | some (Token.OperatorToken lit) =>
    match operatorBindingPowerMap lit with
    | none => Except.error (GoErr.goPanic idxPanicMsg)
    | some bps =>
      if bps.1 < min_bp then Except.ok (lhs, l)
      else
        match parseF fuel none (next l).2 bps.2 with
        | Except.error e => Except.error e
        | Except.ok (rhs, l2) =>
          parseF fuel (some (Expr.InfixExpression lhs rhs lit)) l2 min_bp

/-- `parse(l, min_bp)` of main.go: the fuel `l.tokens.length + 1` is enough
for every input (proved below: the parser consumes a token before each
deeper recursion, so recursion depth is bounded by the token count). -/
def parse (l : Lexer) (min_bp : Int) : Except GoErr (Expr × Lexer) :=
  parseF (l.tokens.length + 1) none l min_bp

/-- `evalExpression` of main.go with `evalPrefix` inlined: an IntegerToken
evaluates to its value; a PrefixExpression switches on its operator before
evaluating its operand (`panic("Should not reach here")` on an unknown
operator); an InfixExpression evaluates left then right and applies the
operation map entry (Go integer division panics on a zero divisor; a missing
map entry yields a nil function whose call panics); the nil Expression
matches no switch case and falls through to `return 0`. -/
def evalExpression : Expr → Except GoErr Int
| Expr.IntegerToken v => Except.ok v
| Expr.PrefixExpression op rhs =>
  if op = "+" then (evalExpression rhs).map (fun x => 1 * x)
  else if op = "-" then (evalExpression rhs).map (fun x => (-1) * x)
  else Except.error (GoErr.goPanic "Should not reach here")
| Expr.InfixExpression lhs rhs op =>
  match evalExpression lhs with
  | Except.error e => Except.error e
  | Except.ok a =>
    match evalExpression rhs with
    | Except.error e => Except.error e
    | Except.ok b =>
      if op = "+" then Except.ok (a + b)
      else if op = "-" then Except.ok (a - b)
      else if op = "*" then Except.ok (a * b)
      else if op = "/" then
        if b = 0 then Except.error (GoErr.goPanic divPanicMsg)
        else Except.ok (a.tdiv b)
      else Except.error (GoErr.goPanic "call of nil function")
| Expr.nilExpr => Except.ok 0

/-- The `main` pipeline on one input line, minus the I/O shim:
`evalExpression(parse(New(input), 0))`. -/
def evalInput (s : String) : Except GoErr Int :=
  match parse (New s) 0 with
  | Except.error e => Except.error e
  | Except.ok (e, _) => evalExpression e

/-- The sequence of tokens delivered by successive `next()` calls until the
cursor is exhausted, with a structural gas argument (`length` iterations
always suffice). -/
def drainGas : Nat → List Token → List Token
| 0, _ => []
| g + 1, ts =>
  match ts.getLast? with
  | none => []
  | some t => t :: drainGas g ts.dropLast

/-- All tokens a Lexer delivers to the parser, in delivery order. -/
def drain (l : Lexer) : List Token := drainGas l.tokens.length l.tokens

@[simp]
theorem tokens_mk (ts : List Token) : (Lexer.mk ts).tokens = ts := rfl

theorem getLast?_some_one_le {ts : List Token} {t : Token} (h : ts.getLast? = some t) :
    1 ≤ ts.length := by
  cases ts with
  | nil => simp at h
  | cons a rest => simp

theorem next_eq_none {l : Lexer} (h : l.tokens.getLast? = none) : next l = (none, l) := by
  simp [next, h]

theorem next_eq_some {l : Lexer} {t : Token} (h : l.tokens.getLast? = some t) :
    next l = (some t, Lexer.mk l.tokens.dropLast) := by
  simp [next, h]

theorem next_snd_le (l : Lexer) : (next l).2.tokens.length ≤ l.tokens.length := by
  cases hg : l.tokens.getLast? with
  | none => rw [next_eq_none hg]
  | some t =>
    rw [next_eq_some hg]
    simp [List.length_dropLast]

/-- Fuel bound of the Pratt parser: with more fuel than tokens, `parseF`
never exhausts its fuel, and a successful result has consumed tokens (at
least one when the call started in the seed phase).  Proved by induction on
the fuel. -/
theorem parseF_bound (fuel : Nat) : ∀ (acc : Option Expr) (l : Lexer) (bp : Int),
    l.tokens.length < fuel →
    parseF fuel acc l bp ≠ Except.error GoErr.outOfFuel ∧
    ∀ e l', parseF fuel acc l bp = Except.ok (e, l') →
      l'.tokens.length ≤ l.tokens.length ∧ (acc = none → l'.tokens.length < l.tokens.length) := by
  induction fuel with
  | zero => intro acc l bp h; exact absurd h (Nat.not_lt_zero _)
  | succ fuel ih =>
    intro acc l bp h
    cases acc with
    | none =>
      cases hg : l.tokens.getLast? with
      | none =>
        simp only [parseF, next_eq_none hg]
        refine ⟨by simp, ?_⟩
        intro e l' hc
        simp at hc
      | some t =>
        have hpos : 1 ≤ l.tokens.length := getLast?_some_one_le hg
        have hlen1 : l.tokens.dropLast.length = l.tokens.length - 1 := List.length_dropLast _
        cases t with
        | IntegerToken v =>
          simp only [parseF, next_eq_some hg]
          have hx := ih (some (Expr.IntegerToken v)) (Lexer.mk l.tokens.dropLast) bp
            (by simp only [tokens_mk]; omega)
          refine ⟨hx.1, ?_⟩
          intro e l' he
          have h2 := (hx.2 e l' he).1
          simp only [tokens_mk] at h2
          exact ⟨by omega, fun _ => by omega⟩
        | PrefixToken s =>
          simp only [parseF, next_eq_some hg]
          have hx := ih (some Expr.nilExpr) (Lexer.mk l.tokens.dropLast) bp
            (by simp only [tokens_mk]; omega)
          refine ⟨hx.1, ?_⟩
          intro e l' he
          have h2 := (hx.2 e l' he).1
          simp only [tokens_mk] at h2
          exact ⟨by omega, fun _ => by omega⟩
        | OperatorToken lit =>
          simp only [parseF, next_eq_some hg]
          by_cases hlit : lit = "("
          · simp only [if_pos hlit]
            have hlen2 : (next (Lexer.mk l.tokens.dropLast)).2.tokens.length ≤ l.tokens.length - 1 := by
              have := next_snd_le (Lexer.mk l.tokens.dropLast)
              simp only [tokens_mk] at this
              omega
            have hx := ih none (next (Lexer.mk l.tokens.dropLast)).2 0 (by omega)
            cases hp : parseF fuel none (next (Lexer.mk l.tokens.dropLast)).2 0 with
            | error e =>
              simp only [hp]
              have he : e ≠ GoErr.outOfFuel := by
                intro hcon; subst hcon; exact hx.1 hp
              refine ⟨?_, ?_⟩
              · intro hcon; injection hcon with h1; exact he h1
              · intro e2 l' hc; simp at hc
            | ok pr =>
              obtain ⟨e3, l3⟩ := pr
              simp only [hp]
              cases hpk : peek l3 with
              | none =>
                simp only [hpk]
                exact ⟨by simp, by intro e2 l' hc; simp at hc⟩
              | some t3 =>
                simp only [hpk]
                by_cases hrv : getExpressionValue t3 = ")"
                · simp only [if_pos hrv]
                  exact ⟨by simp, by intro e2 l' hc; simp at hc⟩
                · simp only [if_neg hrv]
                  exact ⟨by simp, by intro e2 l' hc; simp at hc⟩
          · simp only [if_neg hlit]
            cases hbp : prefixBindingPowerMap lit with
            | none =>
              simp only [hbp]
              exact ⟨by simp, by intro e2 l' hc; simp at hc⟩
            | some bps =>
              simp only [hbp]
              have hx := ih none (Lexer.mk l.tokens.dropLast) bps.2
                (by simp only [tokens_mk]; omega)
              cases hp : parseF fuel none (Lexer.mk l.tokens.dropLast) bps.2 with
              | error e =>
                simp only [hp]
                have he : e ≠ GoErr.outOfFuel := by
                  intro hcon; subst hcon; exact hx.1 hp
                refine ⟨?_, ?_⟩
                · intro hcon; injection hcon with h1; exact he h1
                · intro e2 l' hc; simp at hc
              | ok pr =>
                obtain ⟨rhs, l2⟩ := pr
                simp only [hp]
                have hstrict : l2.tokens.length < l.tokens.length - 1 := by
                  have := (hx.2 rhs l2 hp).2 rfl
                  simp only [tokens_mk] at this
                  omega
                have hy := ih (some (Expr.PrefixExpression lit rhs)) l2 bp (by omega)
                refine ⟨hy.1, ?_⟩
                intro e2 l' he2
                have h2 := (hy.2 e2 l' he2).1
                exact ⟨by omega, fun _ => by omega⟩
    | some lhs =>
      cases hg : l.tokens.getLast? with
      | none =>
        simp only [parseF, peek, hg]
        refine ⟨by simp, ?_⟩
        intro e l' hc
        have hpair : lhs = e ∧ l = l' := by
          have := hc
          simp only [Except.ok.injEq, Prod.mk.injEq] at this
          exact this
        obtain ⟨h1, h2⟩ := hpair
        subst h2
        exact ⟨le_refl _, fun hcon => by simp at hcon⟩
      | some t =>
        have hpos : 1 ≤ l.tokens.length := getLast?_some_one_le hg
        have hlen1 : l.tokens.dropLast.length = l.tokens.length - 1 := List.length_dropLast _
        cases t with
        | IntegerToken v =>
          simp only [parseF, peek, hg]
          exact ⟨by simp, by intro e2 l' hc; simp at hc⟩
        | PrefixToken s =>
          simp only [parseF, peek, hg]
          exact ⟨by simp, by intro e2 l' hc; simp at hc⟩
        | OperatorToken lit =>
          simp only [parseF, peek, hg]
          cases hbp : operatorBindingPowerMap lit with
          | none =>
            simp only [hbp]
            exact ⟨by simp, by intro e2 l' hc; simp at hc⟩
          | some bps =>
            simp only [hbp]
            by_cases hcmp : bps.1 < bp
            · simp only [if_pos hcmp]
              refine ⟨by simp, ?_⟩
              intro e l' hc
              have hpair : lhs = e ∧ l = l' := by
                simp only [Except.ok.injEq, Prod.mk.injEq] at hc
                exact hc
              obtain ⟨h1, h2⟩ := hpair
              subst h2
              exact ⟨le_refl _, fun hcon => by simp at hcon⟩
            · simp only [if_neg hcmp, next_eq_some hg]
              have hx := ih none (Lexer.mk l.tokens.dropLast) bps.2
                (by simp only [tokens_mk]; omega)
              cases hp : parseF fuel none (Lexer.mk l.tokens.dropLast) bps.2 with
              | error e =>
                simp only [hp]
                have he : e ≠ GoErr.outOfFuel := by
                  intro hcon; subst hcon; exact hx.1 hp
                refine ⟨?_, ?_⟩
                · intro hcon; injection hcon with h1; exact he h1
                · intro e2 l' hc; simp at hc
              | ok pr =>
                obtain ⟨rhs, l2⟩ := pr
                simp only [hp]
                have hstrict : l2.tokens.length < l.tokens.length - 1 := by
                  have := (hx.2 rhs l2 hp).2 rfl
                  simp only [tokens_mk] at this
                  omega
                have hy := ih (some (Expr.InfixExpression lhs rhs lit)) l2 bp (by omega)
                refine ⟨hy.1, ?_⟩
                intro e2 l' he2
                have h2 := (hy.2 e2 l' he2).1
                exact ⟨by omega, fun hcon => by simp at hcon⟩

/-- The character class the spec says is the only one that produces tokens:
a decimal digit or one of the four operator characters. -/
def claimTokenChar (c : Char) : Prop :=
  ('0' ≤ c ∧ c ≤ '9') ∨ c = '+' ∨ c = '-' ∨ c = '*' ∨ c = '/'

instance decClaimTokenChar (c : Char) : Decidable (claimTokenChar c) := by
  unfold claimTokenChar; exact inferInstance

/-- The bytes for which the scanning loop of `New` emits a token: a digit
byte or one of the four operator bytes. -/
def emitsTokenByte (b : Nat) : Prop :=
  (48 ≤ b ∧ b ≤ 57) ∨ b = 43 ∨ b = 45 ∨ b = 42 ∨ b = 47

instance decEmitsTokenByte (b : Nat) : Decidable (emitsTokenByte b) := by
  unfold emitsTokenByte; exact inferInstance

/-- A token of one of the two shapes the tokenizer can build: an
IntegerToken holding a digit value, or an OperatorToken holding one of the
four operator literals; never a PrefixToken. -/
def wellFormedToken : Token → Prop
| Token.IntegerToken v => 0 ≤ v ∧ v ≤ 9
| Token.OperatorToken lit => lit = "+" ∨ lit = "-" ∨ lit = "*" ∨ lit = "/"
| Token.PrefixToken _ => False

theorem scanBytes_wellFormed : ∀ (bs : List Nat) (t : Token), t ∈ scanBytes bs →
    wellFormedToken t := by
  intro bs
  induction bs with
  | nil => intro t ht; simp [scanBytes] at ht
  | cons b rest ih =>
    intro t ht
    simp only [scanBytes] at ht
    by_cases h1 : b = 32 ∨ b = 13 ∨ b = 9 ∨ b = 10
    · rw [if_pos h1] at ht; exact ih t ht
    · rw [if_neg h1] at ht
      by_cases h2 : 48 ≤ b ∧ b ≤ 57
      · rw [if_pos h2] at ht
        rcases List.mem_cons.mp ht with he | he
        · subst he
          constructor
          · simp only [Int.ofNat_eq_coe]; omega
          · simp only [Int.ofNat_eq_coe]; omega
        · exact ih t he
      · rw [if_neg h2] at ht
        by_cases h3 : b = 43 ∨ b = 45 ∨ b = 42 ∨ b = 47
        · rw [if_pos h3] at ht
          rcases List.mem_cons.mp ht with he | he
          · subst he
            rcases h3 with hb | hb | hb | hb <;> subst hb <;> simp [wellFormedToken]
          · exact ih t he
        · rw [if_neg h3] at ht; exact ih t ht

/-- C1: parsing the tokenized input "2-1-1" yields the left-associated tree
`InfixExpression(InfixExpression(2, 1, "-"), 1, "-")`, and evaluating it
yields 0. -/
theorem left_assoc_two_minus_one_minus_one :
    (parse (New "2-1-1") 0).map Prod.fst =
      Except.ok (Expr.InfixExpression
        (Expr.InfixExpression (Expr.IntegerToken 2) (Expr.IntegerToken 1) "-")
        (Expr.IntegerToken 1) "-") ∧
    evalInput "2-1-1" = Except.ok 0 := by decide

/-- C2: evaluating the parse of the tokenized inputs "1+2*3" and "2*3+1"
yields 7 in both cases: multiplication (binding powers (3, 4)) binds tighter
than addition (binding powers (1, 2)) on either side of the "+". -/
theorem precedence_seven :
    evalInput "1+2*3" = Except.ok 7 ∧ evalInput "2*3+1" = Except.ok 7 := by decide

/-- C3 failing behaviour: on input "5/0" the evaluator reaches Go's integer
division with divisor 0, which raises the runtime panic "integer divide by
zero"; the program defines no catchable DivisionByZero error, so the
uncaught panic crashes the process. -/
theorem division_by_zero_panics :
    evalInput "5/0" = Except.error (GoErr.goPanic divPanicMsg) := by decide

/-- C4 failing behaviour: on empty input `next()` returns nil (a meaningless
default) without failing, and `parse` then calls `getTokenType` on the nil
interface value, crashing with a nil-pointer runtime panic instead of an
EmptyInput error; a whitespace-only input behaves the same. -/
theorem empty_input_panics :
    next (New "") = (none, New "") ∧
    evalInput "" = Except.error (GoErr.goPanic nilPanicMsg) ∧
    evalInput " \t" = Except.error (GoErr.goPanic nilPanicMsg) := by decide

/-- C5 failing behaviour: the tokenizer output of "12" (an even-length token
sequence) is IntegerToken 1 then IntegerToken 2, but part_001's Reverse
(loop condition `e - s > 1`) leaves the middle pair of an even-length array
unswapped, so successive `next()` calls on part_001's cursor deliver the
tokens out of order; the main.go cursor (loop condition `e - s >= 1`)
delivers them in input order. -/
theorem even_length_delivery_out_of_order :
    scanTokens "12" = [Token.IntegerToken 1, Token.IntegerToken 2] ∧
    drain (NewV1 "12") = [Token.IntegerToken 2, Token.IntegerToken 1] ∧
    drain (New "12") = [Token.IntegerToken 1, Token.IntegerToken 2] := by decide

/-- C6: parsing the tokenized input "-3+5" wraps only the 3 in the unary
minus (prefix right binding power 5 exceeds every infix left binding power),
giving `InfixExpression(PrefixExpression("-", 3), 5, "+")`, which evaluates
to 2. -/
theorem unary_minus_three_plus_five :
    (parse (New "-3+5") 0).map Prod.fst =
      Except.ok (Expr.InfixExpression
        (Expr.PrefixExpression "-" (Expr.IntegerToken 3))
        (Expr.IntegerToken 5) "+") ∧
    evalInput "-3+5" = Except.ok 2 := by decide

/-- C7 failing behaviour: the prefix binding-power table has no entry for
"*", and on input "*3" the parser reads that missing entry unguarded (Go
indexes the nil slice returned by the map lookup), crashing with an
index-out-of-range runtime panic instead of failing with an
UnknownOperatorBindingPower error. -/
theorem leading_star_unguarded_lookup_panics :
    prefixBindingPowerMap "*" = none ∧
    evalInput "*3" = Except.error (GoErr.goPanic idxPanicMsg) := by decide

/-- C8 counterexample: the character Ī (U+012A) is neither a digit nor one
of the four operator characters, yet the tokenizer does not drop it: `New`
truncates each rune to its low byte, and 0x12A mod 256 is 0x2A, the byte of
"*", so tokenizing "1Ī2" does not give the tokens of "12". -/
theorem tokenizer_drops_counterexample :
    ¬ claimTokenChar 'Ī' ∧ scanTokens "1Ī2" ≠ scanTokens "12" := by decide

/-- C8 amended: the scanning loop decides on the truncated byte of each
character: a character whose low byte emits no token is silently dropped
(whitespace or otherwise), so dropping holds for every character with code
point below 256 — in particular `tokenize("1 + 2")` and `tokenize("1@+@2")`
produce the tokens of `tokenize("1+2")` — while characters with higher code
points may alias a digit or operator byte. -/
theorem tokenizer_drops_amended (c : Char) (l1 l2 : List Char)
    (h : ¬ emitsTokenByte (byteOf c)) :
    scanBytes ((l1 ++ c :: l2).map byteOf) = scanBytes ((l1 ++ l2).map byteOf) ∧
    scanTokens "1 + 2" = scanTokens "1+2" ∧
    scanTokens "1@+@2" = scanTokens "1+2" := by
  refine ⟨?_, by decide, by decide⟩
  induction l1 with
  | nil =>
    simp only [List.nil_append, List.map_cons, scanBytes]
    by_cases h1 : byteOf c = 32 ∨ byteOf c = 13 ∨ byteOf c = 9 ∨ byteOf c = 10
    · rw [if_pos h1]
    · rw [if_neg h1]
      have h2 : ¬ (48 ≤ byteOf c ∧ byteOf c ≤ 57) := fun hx => h (Or.inl hx)
      have h3 : ¬ (byteOf c = 43 ∨ byteOf c = 45 ∨ byteOf c = 42 ∨ byteOf c = 47) :=
        fun hx => h (Or.inr hx)
      rw [if_neg h2, if_neg h3]
  | cons x xs ihx =>
    simp only [List.cons_append, List.map_cons, scanBytes]
    simp only [List.map_append, List.map_cons] at ihx
    split_ifs <;> simp [List.map_append, List.map_cons, ihx]

/-- Witness for the C8 amended theorem at the concrete dropped character
'@' inside "1@2". -/
theorem tokenizer_drops_amended_witness :
    (¬ emitsTokenByte (byteOf '@')) ∧
    scanBytes ((['1'] ++ '@' :: ['2']).map byteOf) = scanBytes ((['1'] ++ ['2']).map byteOf) :=
  ⟨by decide, (tokenizer_drops_amended '@' ['1'] ['2'] (by decide)).1⟩

/-- C9: the parser is total: with fuel exceeding the token count, `parseF`
never exhausts its fuel (its recursion depth is bounded by the number of
tokens, because a token is consumed before every deeper recursive call), and
every successful parse has consumed at least one token.  Tokenizing and
evaluating are structurally recursive and total by construction. -/
theorem parse_terminates (fuel : Nat) (l : Lexer) (bp : Int)
    (h : l.tokens.length < fuel) :
    parseF fuel none l bp ≠ Except.error GoErr.outOfFuel ∧
    ∀ e l', parseF fuel none l bp = Except.ok (e, l') →
      l'.tokens.length < l.tokens.length := by
  obtain ⟨h1, h2⟩ := parseF_bound fuel none l bp h
  exact ⟨h1, fun e l' he => (h2 e l' he).2 rfl⟩

/-- Witness for C9 at the concrete input "1+2" with fuel 4. -/
theorem parse_terminates_witness :
    (New "1+2").tokens.length < 4 ∧
    parseF 4 none (New "1+2") 0 ≠ Except.error GoErr.outOfFuel :=
  ⟨by decide, (parse_terminates 4 (New "1+2") 0 (by decide)).1⟩

/-- C10: every token the tokenizer produces, on any input string, is an
IntegerToken whose value is between 0 and 9 or an OperatorToken whose
literal is one of "+", "-", "*", "/"; no PrefixToken and no other literal is
ever constructed. -/
theorem tokenizer_tokens_wellFormed (s : String) (t : Token)
    (ht : t ∈ scanTokens s) : wellFormedToken t :=
  scanBytes_wellFormed _ t ht

/-- Witness for C10 at the concrete input "1+2" and its first token. -/
theorem tokenizer_tokens_wellFormed_witness :
    Token.IntegerToken 1 ∈ scanTokens "1+2" ∧ wellFormedToken (Token.IntegerToken 1) :=
  ⟨by decide, tokenizer_tokens_wellFormed "1+2" (Token.IntegerToken 1) (by decide)⟩

end SimplePratt
